import Mathlib

/-!
Verification of the predicate-combinator and statement-assembly core of the
`pg-worm` repository.

The development shallowly embeds the relevant Rust code:

* `query/filter.rs` and `lib.rs`: the `Filter` struct and its
  `combine_with_sep` placeholder-renumbering loop (`$N` placeholders).
* `query/mod.rs`: the `Where` expression tree (`And`/`Or`/`Not`/`Raw`/`Empty`),
  its `BitAnd`/`BitOr`/`Not` impls, `is_empty`, `push_to_buffer` rendering, and
  `replace_question_marks` (the `?` → `$N` finishing pass).
* `query/table.rs`: `Column` / `TypedColumn` and the comparison constructors.
* `query/update.rs`: the `Update` builder and its `NoneSet`/`SomeSet`
  type-state machine.
* `lib.rs`: the earlier `Column` API with `one_of` / `none_of`.
* `query/mod.rs`: the `QueryOutcome` execution impls for `Vec<T>` and
  `Option<T>`.

Rust `String`s are modelled as `List Char`; fallible operations (the
`parse().unwrap()` inside the renumbering loop) return `Option`, with `none`
modelling the panic.  Parameter values (`Box<dyn ToSql>` / `&dyn ToSql`) are
modelled by a type parameter `α`.
-/

namespace PgWorm

/-! ## Characters and decimal numerals -/

/-- The decimal digit character for `n < 10` (`'0'` … `'9'`). -/
def digitChar (n : Nat) : Char := Char.ofNat (48 + n)

/-- Fuelled decimal printer; `natDigitsGo fuel n` is the decimal numeral of
`n` provided `n < fuel`.  Models Rust's `format!("{}", n)`. -/
def natDigitsGo : Nat → Nat → List Char
  | 0, _ => []
  | fuel + 1, n =>
    if n < 10 then [digitChar n]
    else natDigitsGo fuel (n / 10) ++ [digitChar (n % 10)]

/-- The decimal numeral of `n`, as Rust's `format!("{}", n)` produces it. -/
def natDigits (n : Nat) : List Char := natDigitsGo (n + 1) n

/-- Numeric value of an ASCII digit character. -/
def digitVal (c : Char) : Nat := c.toNat - 48

/-- The number denoted by a list of ASCII digit characters (most significant
first); this is the unchecked core of Rust's `str::parse::<usize>`. -/
def parseDigits (s : List Char) : Nat := s.foldl (fun a c => a * 10 + digitVal c) 0

/-- Model of Rust's `char::is_numeric` on the character set appearing in this
development: Rust's predicate accepts every Unicode `Nd`/`Nl`/`No` character;
this fragment covers the ASCII digits and the Arabic-Indic digits
(U+0660–U+0669), which is a strict superset of the ASCII digits that
`str::parse::<usize>` accepts. -/
def charIsNumeric (c : Char) : Bool := c.isDigit || (0x660 ≤ c.toNat && c.toNat ≤ 0x669)

/-- `usize::MAX` on the 64-bit targets the crate runs on. -/
def usizeMax : Nat := 18446744073709551615

/-- Model of Rust's `str::parse::<usize>()` applied to a run of
`char::is_numeric` characters: it succeeds exactly on a non-empty, all-ASCII
digit string whose value fits in `usize`, and fails (`none`) otherwise
(empty input, a non-ASCII numeric character, or positive overflow). -/
def parseUsize (s : List Char) : Option Nat :=
  if s ≠ [] ∧ s.all Char.isDigit ∧ parseDigits s ≤ usizeMax then some (parseDigits s) else none

/-! ## The `Filter` fragment type and its `combine_with_sep` renumbering loop

Source: `src/pg-worm/src/query/filter.rs` lines 15–105 (and the earlier copy in
`src/pg-worm/src/lib.rs` lines 325–393, which differs only by not having the
empty-statement short-circuit). -/

/-- A predicate fragment: SQL text with `$N` placeholders plus its parameter
list.  Models `struct Filter { stmt: String, args: Vec<Box<dyn ToSql>> }`;
the opaque boxed values are the type parameter `α`. -/
structure Filter (α : Type) where
  stmt : List Char
  args : List α
deriving DecidableEq, Repr

/-- Models `s.trim().is_empty()`: true iff every character is whitespace. -/
def trimEmpty (s : List Char) : Bool := s.all Char.isWhitespace

/-- Models `Filter::all()`: the filter which doesn't filter anything. -/
def Filter.all {α : Type} : Filter α := ⟨[], []⟩

/-- Fuelled embedding of the `while let Some(i) = right_stmt.find('$')` loop of
`Filter::combine_with_sep` (filter.rs lines 62–87): everything before the first
`'$'` is copied unchanged (here one character at a time), then the run of
`char::is_numeric` characters after the `'$'` is measured (`digs`), parsed with
`parse::<usize>().unwrap()` (`none` models the panic on a failed parse), the
number is reprinted shifted by `k = f1.args.len()`, and the loop continues
after the run.  The fuel only serves termination; `renumberPlaceholders` below
supplies `s.length`, which is always sufficient since every step consumes at
least one character. -/
def renumberFuel (k : Nat) : Nat → List Char → Option (List Char)
  | _, [] => some []
  | 0, _ :: _ => none
  | fuel + 1, c :: rest =>
    if c = '$' then
      match parseUsize (rest.takeWhile charIsNumeric) with
      | none => none
      | some num =>
        match renumberFuel k fuel (rest.dropWhile charIsNumeric) with
        | none => none
        | some out => some ('$' :: natDigits (num + k) ++ out)
    else
      match renumberFuel k fuel rest with
      | none => none
      | some out => some (c :: out)

/-- The placeholder-renumbering pass of `Filter::combine_with_sep` applied to
the right-hand statement, shifting every placeholder number by `k`;
`none` models the `unwrap` panic. -/
def renumberPlaceholders (k : Nat) (s : List Char) : Option (List Char) :=
  renumberFuel k s.length s

/-- Models `Filter::combine_with_sep(f1, f2, sep)` (filter.rs lines 50–95):
short-circuit when either trimmed statement is empty, otherwise concatenate
`f1.stmt + sep` with the renumbered right statement and the two argument
lists.  `none` models the panic inside the renumbering loop. -/
def Filter.combine_with_sep {α : Type} (f1 f2 : Filter α) (sep : List Char) :
    Option (Filter α) :=
  if trimEmpty f1.stmt then some f2
  else if trimEmpty f2.stmt then some f1
  else
    match renumberPlaceholders f1.args.length f2.stmt with
    | none => none
    | some rs => some ⟨f1.stmt ++ sep ++ rs, f1.args ++ f2.args⟩

/-- Models `impl BitAnd for Filter` (separator `" AND "`). -/
def Filter.bitand {α : Type} (f1 f2 : Filter α) : Option (Filter α) :=
  Filter.combine_with_sep f1 f2 " AND ".data

/-- Models `impl BitOr for Filter` (separator `" OR "`). -/
def Filter.bitor {α : Type} (f1 f2 : Filter α) : Option (Filter α) :=
  Filter.combine_with_sep f1 f2 " OR ".data

/-! ### Specification-side views of the renumbering pass -/

/-- Specification view (fuelled): the right-hand statement with every
placeholder numeral shifted by `k` — "every generic placeholder token in the
right-hand fragment is shifted by the left-hand fragment's parameter count".
Total: malformed runs are reprinted from whatever `parseDigits` makes of
them. -/
def specShiftFuel (k : Nat) : Nat → List Char → List Char
  | _, [] => []
  | 0, s => s
  | fuel + 1, c :: rest =>
    if c = '$' then
      '$' :: natDigits (parseDigits (rest.takeWhile charIsNumeric) + k) ++
        specShiftFuel k fuel (rest.dropWhile charIsNumeric)
    else c :: specShiftFuel k fuel rest

/-- The statement with every placeholder numeral shifted by `k`
(specification-side, total). -/
def specShift (k : Nat) (s : List Char) : List Char := specShiftFuel k s.length s

/-- Fuelled scan extracting the numeral after each `'$'` (the same maximal
`char::is_numeric` run the combine loop consumes), in left-to-right order. -/
def placeholderNumsFuel : Nat → List Char → List Nat
  | _, [] => []
  | 0, _ :: _ => []
  | fuel + 1, c :: rest =>
    if c = '$' then
      parseDigits (rest.takeWhile charIsNumeric) :: placeholderNumsFuel fuel (rest.dropWhile charIsNumeric)
    else placeholderNumsFuel fuel rest

/-- The list of placeholder numbers of a statement, in order of occurrence. -/
def placeholderNums (s : List Char) : List Nat := placeholderNumsFuel s.length s

/-- Fuelled well-formedness of the placeholders of a statement: after each
`'$'` the maximal `char::is_numeric` run is non-empty, consists of ASCII
digits only, and denotes a value that fits in `usize` — exactly the condition
under which `parse::<usize>().unwrap()` in the combine loop cannot panic. -/
def wfStmtFuel : Nat → List Char → Bool
  | _, [] => true
  | 0, _ :: _ => false
  | fuel + 1, c :: rest =>
    if c = '$' then
      let run := rest.takeWhile charIsNumeric
      !run.isEmpty && run.all Char.isDigit && decide (parseDigits run ≤ usizeMax) &&
        wfStmtFuel fuel (rest.dropWhile charIsNumeric)
    else wfStmtFuel fuel rest

/-- Well-formedness of the placeholders of a statement. -/
def wfStmt (s : List Char) : Bool := wfStmtFuel s.length s

/-- The claim's literal precondition: every occurrence of `'$'` is immediately
followed by at least one ASCII digit. -/
def everyDollarFollowedByDigit : List Char → Bool
  | [] => true
  | ['$'] => false
  | '$' :: c :: rest => c.isDigit && everyDollarFollowedByDigit (c :: rest)
  | _ :: rest => everyDollarFollowedByDigit rest

/-- Number of generic `$` placeholder markers in a statement. -/
def dollarCount (s : List Char) : Nat := s.count '$'

/-! ## The old `Column` API (`src/pg-worm/src/lib.rs` lines 411–475) -/

/-- Models `struct Column<T> { name: &'static str, rs_type: PhantomData<T> }`
from `lib.rs`; the phantom value-type parameter carries no data and is
dropped. -/
structure Column where
  name : List Char
deriving DecidableEq, Repr

/-- Models `Column::new`. -/
def Column.new (name : List Char) : Column := ⟨name⟩

/-- Join a list of chunks with a separator between consecutive elements.
Models the text effect of `push_all_with_sep` / `Vec::join(", ")`: each
element is pushed followed by the separator, and the final separator is
truncated away — i.e. the elements joined by the separator (an empty list
produces nothing, matching the early return). -/
def joinSep (sep : List Char) : List (List Char) → List Char
  | [] => []
  | [x] => x
  | x :: xs => x ++ sep ++ joinSep sep xs

/-- Models `Column::one_of` (lib.rs lines 432–452): empty input short-circuits
to `Filter::all()`; otherwise the placeholders `$1, $2, …, $n` are joined and
the statement is `"<name> IN (<placeholders>)"` with the values in order. -/
def Column.one_of {α : Type} (c : Column) (values : List α) : Filter α :=
  if values.isEmpty then Filter.all
  else
    Filter.mk
      (c.name ++ " IN (".data ++
        joinSep ", ".data ((List.range' 1 values.length).map (fun i => '$' :: natDigits i)) ++ [')'])
      values

/-- Models `Column::none_of` (lib.rs lines 454–474): like `one_of` with
`NOT IN`. -/
def Column.none_of {α : Type} (c : Column) (values : List α) : Filter α :=
  if values.isEmpty then Filter.all
  else
    Filter.mk
      (c.name ++ " NOT IN (".data ++
        joinSep ", ".data ((List.range' 1 values.length).map (fun i => '$' :: natDigits i)) ++ [')'])
      values

/-! ## The `Where` expression tree (`src/pg-worm/src/query/mod.rs`) -/

/-- Models `enum Where<'a> { And(Vec<Where>), Or(Vec<Where>), Not(Box<Where>),
Raw(SqlChunk), Empty }`; a `SqlChunk` is its SQL text together with its
parameter references, so `Raw` carries both. -/
inductive Where (α : Type) where
  | And (children : List (Where α))
  | Or (children : List (Where α))
  | Not (inner : Where α)
  | Raw (stmt : List Char) (params : List α)
  | Empty

/-- Models `Where::new(expr, params)`: a raw condition. -/
def Where.new {α : Type} (expr : List Char) (params : List α) : Where α :=
  Where.Raw expr params

mutual

/-- Models `Where::is_empty` (mod.rs lines 253–263): `Empty` is empty, a `Raw`
is empty iff its text is empty (`String::is_empty`, not trimmed), `Not` is
empty iff its child is, and `And`/`Or` are empty iff all children are. -/
def Where.is_empty {α : Type} : Where α → Bool
  | .Empty => true
  | .Raw s _ => s.isEmpty
  | .Not inner => Where.is_empty inner
  | .And children => allEmpty children
  | .Or children => allEmpty children

/-- Helper for `Where.is_empty`: `vec.iter().all(|i| i.is_empty())`. -/
def allEmpty {α : Type} : List (Where α) → Bool
  | [] => true
  | w :: ws => Where.is_empty w && allEmpty ws

end

/-- Models `impl BitAnd for Where` (mod.rs lines 292–326), clause by clause:
`Empty` on either side returns the other operand; if `self` is `And` the other
operand (or, when it is itself an `And`, its children) is appended to `self`'s
children; otherwise if `other` is `And`, `self` is pushed onto the end of
`other`'s children; otherwise a fresh two-element `And` is built. -/
def Where.bitand {α : Type} (self other : Where α) : Where α :=
  match self, other with
  | .Empty, o => o
  | s, .Empty => s
  | .And v1, .And v2 => .And (v1 ++ v2)
  | .And v1, o => .And (v1 ++ [o])
  | s, .And v2 => .And (v2 ++ [s])
  | s, o => .And [s, o]

/-- Models `impl BitOr for Where` (mod.rs lines 328–361), clause by clause.
Note the inner test of the `self = Or` branch really matches `And(other_vec)`
(mod.rs line 346), although its comment says "If other is also OR append the
whole vec": an `And` right operand has its children spliced into the `Or`
list, while an `Or` right operand is pushed as a single nested element. -/
def Where.bitor {α : Type} (self other : Where α) : Where α :=
  match self, other with
  | .Empty, o => o
  | s, .Empty => s
  | .Or v1, .And v2 => .Or (v1 ++ v2)
  | .Or v1, o => .Or (v1 ++ [o])
  | s, .Or v2 => .Or (v2 ++ [s])
  | s, o => .Or [s, o]

/-- Models `Where::and` (which just calls `bitand`). -/
def Where.and {α : Type} (self other : Where α) : Where α := Where.bitand self other

/-- Models `Where::or` (which just calls `bitor`). -/
def Where.or {α : Type} (self other : Where α) : Where α := Where.bitor self other

/-- Models `impl Not for Where` (mod.rs lines 363–375): negating a `Not` node
unwraps it, anything else is wrapped in a `Not`. -/
def Where.not {α : Type} : Where α → Where α
  | .Not inner => inner
  | w => .Not w

mutual

/-- The (text, params) chunk that `Where::push_to_buffer` (mod.rs lines
377–407) appends to the statement buffer.  `push_to_buffer` only ever appends
to the buffer's text and parameter list, so its effect is captured by this
appended chunk: nothing for an empty tree; the raw chunk itself for `Raw`;
`NOT (…)` around the child chunk for `Not`; and for `And`/`Or` every child
chunk (empty children included) wrapped in parentheses and joined with
`") AND ("` / `") OR ("` via `push_all_with_sep`, whose trailing separator is
truncated away. -/
def Where.render {α : Type} : Where α → List Char × List α
  | .Empty => ([], [])
  | .Raw s ps => if (Where.Raw s ps : Where α).is_empty then ([], []) else (s, ps)
  | .Not inner =>
    if (Where.Not inner : Where α).is_empty then ([], [])
    else ("NOT (".data ++ (Where.render inner).1 ++ [')'], (Where.render inner).2)
  | .And children =>
    if (Where.And children : Where α).is_empty then ([], [])
    else
      ('(' :: joinSep ") AND (".data (renderTexts children) ++ [')'], renderParams children)
  | .Or children =>
    if (Where.Or children : Where α).is_empty then ([], [])
    else
      ('(' :: joinSep ") OR (".data (renderTexts children) ++ [')'], renderParams children)

/-- Texts of the chunks the children push, in order. -/
def renderTexts {α : Type} : List (Where α) → List (List Char)
  | [] => []
  | w :: ws => (Where.render w).1 :: renderTexts ws

/-- Parameters of the chunks the children push, concatenated in order. -/
def renderParams {α : Type} : List (Where α) → List α
  | [] => []
  | w :: ws => (Where.render w).2 ++ renderParams ws

end

/-- Models `replace_question_marks` (mod.rs lines 157–184) with the running
`enumerate` counter made explicit: the text before each `'?'` is copied, the
`(count+1)`-th occurrence of `'?'` is replaced by `'$'` followed by the
decimal numeral `count + 1`, and the tail after the last `'?'` is copied. -/
def replaceQMFrom (count : Nat) : List Char → List Char
  | [] => []
  | c :: rest =>
    if c = '?' then '$' :: natDigits (count + 1) ++ replaceQMFrom (count + 1) rest
    else c :: replaceQMFrom count rest

/-- Models `replace_question_marks(stmt)`: rewrite the `k`-th `'?'` (1-based,
left to right) into `'$k'`. -/
def replace_question_marks (s : List Char) : List Char := replaceQMFrom 0 s

/-- A `Where` tree pushed into a fresh statement buffer and finished by the
single `replace_question_marks` pass, as `Select`/`Update`/`Delete` builders
do: the final SQL text and the parameter list. -/
def whereFinished {α : Type} (w : Where α) : List Char × List α :=
  (replace_question_marks (Where.render w).1, (Where.render w).2)

/-! ## Typed columns (`src/pg-worm/src/query/table.rs`) -/

/-- Models `struct Column` of table.rs: identity (table name, column name)
plus the four boolean attributes. -/
structure ColumnMeta where
  column_name : List Char
  table_name : List Char
  nullable : Bool
  unique : Bool
  primary_key : Bool
  generated : Bool
deriving DecidableEq, Repr

/-- Models `Column::new` of table.rs: all attributes start out `false`. -/
def ColumnMeta.new (table_name column_name : List Char) : ColumnMeta :=
  ⟨column_name, table_name, false, false, false, false⟩

/-- Models `struct TypedColumn<T> { column: Column, rs_type: PhantomData<T> }`
of table.rs; the phantom Rust value type carries no data and is dropped. -/
structure TypedColumn where
  column : ColumnMeta
deriving DecidableEq, Repr

/-- Models `TypedColumn::new`. -/
def TypedColumn.new (table_name column_name : List Char) : TypedColumn :=
  ⟨ColumnMeta.new table_name column_name⟩

/-- Models `TypedColumn::eq`: `Where::new(format!("{}.{} = ?", table, col),
vec![other])`. -/
def TypedColumn.eq {α : Type} (c : TypedColumn) (other : α) : Where α :=
  Where.new (c.column.table_name ++ ['.'] ++ c.column.column_name ++ " = ?".data) [other]

/-- Models `TypedColumn::gt`: `Where::new(format!("{}.{} > ?", table, col),
vec![other])`. -/
def TypedColumn.gt {α : Type} (c : TypedColumn) (other : α) : Where α :=
  Where.new (c.column.table_name ++ ['.'] ++ c.column.column_name ++ " > ?".data) [other]

/-! ## The `Update` builder (`src/pg-worm/src/query/update.rs`) -/

/-- The two type-state markers of the `Update` builder: `NoneSet` (initial, no
`set` call yet, not executable) and `SomeSet` (at least one `set` call).  In
the source these are two distinct marker *types* used as the `State` type
parameter of `Update<'a, State>`; here they are the two values of a state
index carried by the builder. -/
inductive SetState where
  | NoneSet
  | SomeSet
deriving DecidableEq, Repr

/-- Models `struct Update<'a, State> { table, updates: Vec<SqlChunk>, where_,
state: PhantomData<State> }`; the type-state parameter is carried as the
`state` field. -/
structure Update (α : Type) where
  table : List Char
  updates : List (List Char × List α)
  where_ : Where α
  state : SetState

/-- Models `Update::new(table)`: empty assignment list, empty `WHERE`, state
`NoneSet`. -/
def Update.new {α : Type} (table : List Char) : Update α :=
  ⟨table, [], Where.Empty, SetState.NoneSet⟩

/-- Models `Update::where_`: conditions are joined onto the existing `WHERE`
clause using `AND`; the state is unchanged. -/
def Update.addWhere {α : Type} (u : Update α) (w : Where α) : Update α :=
  { u with where_ := u.where_.and w }

/-- Models `Update::set(col, value)` (update.rs lines 89–103): push the chunk
`"<column_name> = ?"` with the value, and move to state `SomeSet` (in the
source: return `Update<SomeSet>`). -/
def Update.set {α : Type} (u : Update α) (col : TypedColumn) (value : α) : Update α :=
  { table := u.table
    updates := u.updates ++ [(col.column.column_name ++ " = ?".data, [value])]
    where_ := u.where_
    state := SetState.SomeSet }

/-- Models `impl From<Update<'a, SomeSet>> for Query<'a, u64>` (update.rs
lines 106–128): `"UPDATE <table> SET "`, the assignment chunks joined by
`", "` via `push_all_with_sep`, the `WHERE` clause when non-empty, and the
final `replace_question_marks` pass.  The `From` impl exists only at
`State = SomeSet`, which the hypothesis `h` mirrors: a builder in state
`NoneSet` cannot be rendered or executed. -/
def Update.toQuery {α : Type} (u : Update α) (_h : u.state = SetState.SomeSet) :
    List Char × List α :=
  let afterSet : List Char := "UPDATE ".data ++ u.table ++ " SET ".data ++
    joinSep ", ".data (u.updates.map Prod.fst)
  let params1 : List α := (u.updates.map Prod.snd).flatten
  let buf : List Char × List α :=
    if u.where_.is_empty then (afterSet, params1)
    else (afterSet ++ " WHERE ".data ++ (Where.render u.where_).1,
      params1 ++ (Where.render u.where_).2)
  (replace_question_marks buf.1, buf.2)

/-! ## Execution outcomes (`src/pg-worm/src/query/mod.rs` lines 75–103) -/

/-- Models the row-decoding step of `impl QueryOutcome for Vec<T>`:
`res.into_iter().map(T::try_from).collect::<Result<Vec<T>, _>>()` — decode
rows left to right, stopping at the first row whose decode fails. -/
def decodeAll {ρ ε τ : Type} (tryFrom : ρ → Except ε τ) : List ρ → Except ε (List τ)
  | [] => Except.ok []
  | r :: rs =>
    match tryFrom r with
    | Except.error e => Except.error e
    | Except.ok t =>
      match decodeAll tryFrom rs with
      | Except.error e => Except.error e
      | Except.ok ts => Except.ok (t :: ts)

/-- Models `QueryOutcome::exec_with` for `Vec<T>` (mod.rs lines 75–88): the
client's `query` result (`Err` models a protocol error) is propagated, then
every row is decoded via `decodeAll`. -/
def vecExecWith {ρ ε τ : Type} (queryRes : Except ε (List ρ)) (tryFrom : ρ → Except ε τ) :
    Except ε (List τ) :=
  match queryRes with
  | Except.error e => Except.error e
  | Except.ok rows => decodeAll tryFrom rows

/-- Models `QueryOutcome::exec_with` for `Option<T>` (mod.rs lines 90–103):
`res.into_iter().map(T::try_from).next().transpose()` — zero rows yield
`none`, otherwise only the first row is decoded (the iterator is lazy, so
later rows are never touched). -/
def optionExecWith {ρ ε τ : Type} (queryRes : Except ε (List ρ)) (tryFrom : ρ → Except ε τ) :
    Except ε (Option τ) :=
  match queryRes with
  | Except.error e => Except.error e
  | Except.ok [] => Except.ok none
  | Except.ok (r :: _) =>
    match tryFrom r with
    | Except.error e => Except.error e
    | Except.ok t => Except.ok (some t)

/-! ## Concrete sample data used by the example-based claims -/

/-- A concrete parameter-value type standing in for `&dyn ToSql` values in the
example-based claims: integers and strings. -/
inductive Val where
  | i (n : Int)
  | s (st : String)
deriving DecidableEq, Repr

/-- The generated `TypedColumn` for field `id` of a `book` table. -/
def bookId : TypedColumn := TypedColumn.new "book".data "id".data

/-- The generated `TypedColumn` for field `title` of a `book` table. -/
def bookTitle : TypedColumn := TypedColumn.new "book".data "title".data

/-- The generated `TypedColumn` for field `price` of a `book` table. -/
def bookPrice : TypedColumn := TypedColumn.new "book".data "price".data

theorem digitChar_toNat {n : Nat} (h : n < 10) : (digitChar n).toNat = 48 + n := by
  interval_cases n <;> decide

theorem digitChar_isDigit {n : Nat} (h : n < 10) : (digitChar n).isDigit = true := by
  interval_cases n <;> decide

theorem digitVal_digitChar {n : Nat} (h : n < 10) : digitVal (digitChar n) = n := by
  interval_cases n <;> decide

theorem isDigit_ne_of_not_digit {c d : Char} (hc : c.isDigit = true) (hd : d.isDigit = false) :
    c ≠ d := by
  intro h; rw [h] at hc; rw [hc] at hd; cases hd

theorem parseDigits_append (a b : List Char) :
    parseDigits (a ++ b) = b.foldl (fun x c => x * 10 + digitVal c) (parseDigits a) := by
  simp [parseDigits, List.foldl_append]

theorem natDigitsGo_all_digit :
    ∀ fuel n, n < fuel → ∀ c ∈ natDigitsGo fuel n, c.isDigit = true := by
  intro fuel
  induction fuel with
  | zero => intro n h; omega
  | succ fuel ih =>
    intro n h c hc
    by_cases h10 : n < 10
    · simp [natDigitsGo, h10] at hc
      subst hc; exact digitChar_isDigit h10
    · simp [natDigitsGo, h10] at hc
      rcases hc with hc | hc
      · exact ih (n / 10) (by omega) c hc
      · subst hc; exact digitChar_isDigit (Nat.mod_lt _ (by omega))

theorem natDigits_all_digit (n : Nat) : ∀ c ∈ natDigits n, c.isDigit = true :=
  natDigitsGo_all_digit (n + 1) n (Nat.lt_succ_self n)

theorem parseDigits_natDigitsGo :
    ∀ fuel n, n < fuel → parseDigits (natDigitsGo fuel n) = n := by
  intro fuel
  induction fuel with
  | zero => intro n h; omega
  | succ fuel ih =>
    intro n h
    by_cases h10 : n < 10
    · simp [natDigitsGo, h10, parseDigits, digitVal_digitChar h10]
    · have hrec : parseDigits (natDigitsGo fuel (n / 10)) = n / 10 := ih (n / 10) (by omega)
      rw [natDigitsGo, if_neg h10, parseDigits_append, List.foldl_cons, List.foldl_nil, hrec,
        digitVal_digitChar (Nat.mod_lt n (by omega))]
      omega

theorem parseDigits_natDigits (n : Nat) : parseDigits (natDigits n) = n :=
  parseDigits_natDigitsGo (n + 1) n (Nat.lt_succ_self n)

theorem natDigits_ne_nil (n : Nat) : natDigits n ≠ [] := by
  unfold natDigits natDigitsGo
  by_cases h10 : n < 10 <;> simp [h10]

theorem charIsNumeric_of_isDigit {c : Char} (h : c.isDigit = true) : charIsNumeric c = true := by
  simp [charIsNumeric, h]

theorem ne_dollar_of_isDigit {c : Char} (h : c.isDigit = true) : c ≠ '$' :=
  isDigit_ne_of_not_digit h (by decide)

theorem ne_qm_of_isDigit {c : Char} (h : c.isDigit = true) : c ≠ '?' :=
  isDigit_ne_of_not_digit h (by decide)

theorem dollar_not_mem_natDigits (n : Nat) : '$' ∉ natDigits n := by
  intro hmem
  exact ne_dollar_of_isDigit (natDigits_all_digit n '$' hmem) rfl

theorem qm_not_mem_natDigits (n : Nat) : '?' ∉ natDigits n := by
  intro hmem
  exact ne_qm_of_isDigit (natDigits_all_digit n '?' hmem) rfl

theorem natDigits_all_numeric (n : Nat) : ∀ c ∈ natDigits n, charIsNumeric c = true :=
  fun c hc => charIsNumeric_of_isDigit (natDigits_all_digit n c hc)

/-! ### Scanning helper lemmas -/

theorem takeWhile_append_stop {p : α → Bool} {b : List α}
    (hb : ∀ c, b.head? = some c → p c = false) :
    ∀ a : List α, (a ++ b).takeWhile p = a.takeWhile p := by
  intro a
  induction a with
  | nil =>
    cases b with
    | nil => rfl
    | cons c b' => simp [List.takeWhile_cons, hb c rfl]
  | cons x a' ih =>
    by_cases hx : p x
    · simp [List.takeWhile_cons, hx, ih]
    · simp [List.takeWhile_cons, hx]

theorem dropWhile_append_stop {p : α → Bool} {b : List α}
    (hb : ∀ c, b.head? = some c → p c = false) :
    ∀ a : List α, (a ++ b).dropWhile p = a.dropWhile p ++ b := by
  intro a
  induction a with
  | nil =>
    cases b with
    | nil => rfl
    | cons c b' => simp [List.dropWhile_cons, hb c rfl]
  | cons x a' ih =>
    by_cases hx : p x
    · simp [List.dropWhile_cons, hx, ih]
    · simp [List.dropWhile_cons, hx]

theorem length_dropWhile_le (p : α → Bool) (l : List α) :
    (l.dropWhile p).length ≤ l.length :=
  (List.dropWhile_sublist p).length_le

theorem head?_dropWhile_numeric_false (s : List Char) :
    ∀ c, ((s.dropWhile charIsNumeric).head? = some c) → charIsNumeric c = false := by
  intro c hc
  have h := List.head?_dropWhile_not charIsNumeric s
  rw [hc] at h
  exact h

/-! ### Fuel irrelevance and unfolding steps for the placeholder scans -/

theorem placeholderNumsFuel_congr :
    ∀ f1 f2 s, s.length ≤ f1 → s.length ≤ f2 →
      placeholderNumsFuel f1 s = placeholderNumsFuel f2 s := by
  intro f1
  induction f1 with
  | zero =>
    intro f2 s h1 _
    have : s = [] := List.eq_nil_of_length_eq_zero (by omega)
    subst this
    cases f2 <;> rfl
  | succ g1 ih =>
    intro f2 s h1 h2
    cases s with
    | nil => cases f2 <;> rfl
    | cons c rest =>
      cases f2 with
      | zero => simp at h2
      | succ g2 =>
        simp only [placeholderNumsFuel]
        by_cases hc : c = '$'
        · have hd : (rest.dropWhile charIsNumeric).length ≤ g1 := by
            have := length_dropWhile_le charIsNumeric rest
            simp at h1; omega
          have hd2 : (rest.dropWhile charIsNumeric).length ≤ g2 := by
            have := length_dropWhile_le charIsNumeric rest
            simp at h2; omega
          simp only [hc, if_pos, ih g2 _ hd hd2]
        · simp only [if_neg hc]
          have hr : rest.length ≤ g1 := by simp at h1; omega
          have hr2 : rest.length ≤ g2 := by simp at h2; omega
          exact ih g2 rest hr hr2

theorem placeholderNums_cons_dollar (rest : List Char) :
    placeholderNums ('$' :: rest) =
      parseDigits (rest.takeWhile charIsNumeric) ::
        placeholderNums (rest.dropWhile charIsNumeric) := by
  unfold placeholderNums
  simp only [List.length_cons, placeholderNumsFuel, if_pos]
  rw [placeholderNumsFuel_congr rest.length (rest.dropWhile charIsNumeric).length _
    (length_dropWhile_le charIsNumeric rest) (le_refl _)]

theorem placeholderNums_cons_other {c : Char} (hc : c ≠ '$') (rest : List Char) :
    placeholderNums (c :: rest) = placeholderNums rest := by
  unfold placeholderNums
  simp only [List.length_cons, placeholderNumsFuel, if_neg hc]

theorem placeholderNums_nil : placeholderNums [] = [] := rfl

/-! ### The renumbering loop agrees with the specification shift -/

theorem renumberFuel_eq_specShiftFuel (k : Nat) :
    ∀ fuel s, s.length ≤ fuel → wfStmtFuel fuel s = true →
      renumberFuel k fuel s = some (specShiftFuel k fuel s) := by
  intro fuel
  induction fuel with
  | zero =>
    intro s h1 _
    have : s = [] := List.eq_nil_of_length_eq_zero (by omega)
    subst this; rfl
  | succ fuel ih =>
    intro s h1 hwf
    cases s with
    | nil => rfl
    | cons c rest =>
      by_cases hc : c = '$'
      · subst hc
        simp only [wfStmtFuel, if_pos, Bool.and_eq_true, Bool.not_eq_true',
          decide_eq_true_eq] at hwf
        obtain ⟨⟨⟨hne, hdig⟩, hmax⟩, hrec⟩ := hwf
        have hparse : parseUsize (rest.takeWhile charIsNumeric) =
            some (parseDigits (rest.takeWhile charIsNumeric)) := by
          unfold parseUsize
          rw [if_pos]
          refine ⟨?_, hdig, by simpa using hmax⟩
          simpa [List.isEmpty_iff] using hne
        have hd : (rest.dropWhile charIsNumeric).length ≤ fuel := by
          have := length_dropWhile_le charIsNumeric rest
          simp at h1; omega
        simp only [renumberFuel, specShiftFuel, if_pos, hparse, ih _ hd hrec]
      · have hr : rest.length ≤ fuel := by simp at h1; omega
        have hwf' : wfStmtFuel fuel rest = true := by
          simpa only [wfStmtFuel, if_neg hc] using hwf
        simp only [renumberFuel, specShiftFuel, if_neg hc, ih rest hr hwf']

/-- The combine loop succeeds on a well-formed right statement and produces
exactly the statement with every placeholder numeral shifted by `k`. -/
theorem renumberPlaceholders_eq_specShift (k : Nat) (s : List Char) (h : wfStmt s = true) :
    renumberPlaceholders k s = some (specShift k s) :=
  renumberFuel_eq_specShiftFuel k s.length s (le_refl _) h

theorem specShiftFuel_head_not_numeric (k : Nat) (fuel : Nat) (s : List Char)
    (hs : ∀ c, s.head? = some c → charIsNumeric c = false) :
    ∀ c, (specShiftFuel k fuel s).head? = some c → charIsNumeric c = false := by
  cases fuel with
  | zero =>
    cases s with
    | nil => intro c hc; simp [specShiftFuel] at hc
    | cons x rest => simpa [specShiftFuel] using hs
  | succ fuel =>
    cases s with
    | nil => intro c hc; simp [specShiftFuel] at hc
    | cons x rest =>
      by_cases hx : x = '$'
      · subst hx
        intro c hc
        simp only [specShiftFuel, if_pos] at hc
        simp at hc
        subst hc; decide
      · intro c hc
        simp only [specShiftFuel, if_neg hx] at hc
        simp at hc
        exact hs c (by simp [hc.symm])

theorem placeholderNums_specShiftFuel (k : Nat) :
    ∀ fuel s, s.length ≤ fuel →
      placeholderNums (specShiftFuel k fuel s) = (placeholderNumsFuel fuel s).map (· + k) := by
  intro fuel
  induction fuel with
  | zero =>
    intro s h1
    have : s = [] := List.eq_nil_of_length_eq_zero (by omega)
    subst this; rfl
  | succ fuel ih =>
    intro s h1
    cases s with
    | nil => rfl
    | cons c rest =>
      by_cases hc : c = '$'
      · subst hc
        have hd : (rest.dropWhile charIsNumeric).length ≤ fuel := by
          have := length_dropWhile_le charIsNumeric rest
          simp at h1; omega
        have hstop : ∀ c, (specShiftFuel k fuel (rest.dropWhile charIsNumeric)).head? = some c →
            charIsNumeric c = false :=
          specShiftFuel_head_not_numeric k fuel _ (head?_dropWhile_numeric_false rest)
        have hdigits := natDigits_all_numeric (parseDigits (rest.takeWhile charIsNumeric) + k)
        simp only [specShiftFuel, if_pos, placeholderNumsFuel, List.cons_append]
        rw [placeholderNums_cons_dollar]
        rw [takeWhile_append_stop hstop _, dropWhile_append_stop hstop _,
          List.takeWhile_eq_self_iff.mpr hdigits,
          List.dropWhile_eq_nil_iff.mpr hdigits]
        simp only [List.nil_append, parseDigits_natDigits, List.map_cons]
        rw [ih _ hd]
      · have hr : rest.length ≤ fuel := by simp at h1; omega
        simp only [specShiftFuel, if_neg hc, placeholderNumsFuel]
        rw [placeholderNums_cons_other hc, ih rest hr]

/-- The shifted statement's placeholder numbers are exactly the original ones,
each increased by `k`, in the same order. -/
theorem placeholderNums_specShift (k : Nat) (s : List Char) :
    placeholderNums (specShift k s) = (placeholderNums s).map (· + k) :=
  placeholderNums_specShiftFuel k s.length s (le_refl _)

theorem dollarCount_specShiftFuel (k : Nat) :
    ∀ fuel s, s.length ≤ fuel → dollarCount (specShiftFuel k fuel s) = dollarCount s := by
  intro fuel
  induction fuel with
  | zero =>
    intro s h1
    have : s = [] := List.eq_nil_of_length_eq_zero (by omega)
    subst this; rfl
  | succ fuel ih =>
    intro s h1
    cases s with
    | nil => rfl
    | cons c rest =>
      by_cases hc : c = '$'
      · subst hc
        have hd : (rest.dropWhile charIsNumeric).length ≤ fuel := by
          have := length_dropWhile_le charIsNumeric rest
          simp at h1; omega
        have hdig0 : dollarCount (natDigits (parseDigits (rest.takeWhile charIsNumeric) + k)) = 0 :=
          List.count_eq_zero.mpr (dollar_not_mem_natDigits _)
        have htake0 : dollarCount (rest.takeWhile charIsNumeric) = 0 := by
          refine List.count_eq_zero.mpr ?_
          intro hmem
          have := List.mem_takeWhile_imp hmem
          simp [charIsNumeric] at this
        have hsplit : dollarCount rest =
            dollarCount (rest.takeWhile charIsNumeric) + dollarCount (rest.dropWhile charIsNumeric) := by
          conv_lhs => rw [← List.takeWhile_append_dropWhile charIsNumeric rest]
          exact List.count_append _ _ _
        simp only [specShiftFuel, if_pos]
        simp only [dollarCount] at *
        simp only [List.count_cons_self, List.count_append]
        rw [ih _ hd]
        omega
      · have hr : rest.length ≤ fuel := by simp at h1; omega
        simp only [specShiftFuel, if_neg hc]
        simp only [dollarCount] at *
        rw [List.count_cons_of_ne (fun h => hc h.symm), List.count_cons_of_ne (fun h => hc h.symm),
          ih rest hr]

/-- Shifting preserves the number of `$` placeholder markers. -/
theorem dollarCount_specShift (k : Nat) (s : List Char) :
    dollarCount (specShift k s) = dollarCount s :=
  dollarCount_specShiftFuel k s.length s (le_refl _)

theorem placeholderNums_append_no_dollar {sep : List Char} (h : '$' ∉ sep) (z : List Char) :
    placeholderNums (sep ++ z) = placeholderNums z := by
  induction sep with
  | nil => rfl
  | cons c sep' ih =>
    have hc : c ≠ '$' := fun hh => h (hh ▸ List.mem_cons_self c sep')
    rw [List.cons_append, placeholderNums_cons_other hc, ih (fun hm => h (List.mem_cons_of_mem c hm))]

theorem placeholderNums_append_aux {y : List Char}
    (hy : ∀ c, y.head? = some c → charIsNumeric c = false) :
    ∀ n x, x.length ≤ n → placeholderNums (x ++ y) = placeholderNums x ++ placeholderNums y := by
  intro n
  induction n with
  | zero =>
    intro x h1
    have : x = [] := List.eq_nil_of_length_eq_zero (by omega)
    subst this; simp [placeholderNums_nil]
  | succ n ih =>
    intro x h1
    cases x with
    | nil => simp [placeholderNums_nil]
    | cons c x' =>
      by_cases hc : c = '$'
      · subst hc
        have hd : (x'.dropWhile charIsNumeric).length ≤ n := by
          have := length_dropWhile_le charIsNumeric x'
          simp at h1; omega
        rw [List.cons_append, placeholderNums_cons_dollar, placeholderNums_cons_dollar,
          takeWhile_append_stop hy _, dropWhile_append_stop hy _, ih _ hd]
        simp
      · have hr : x'.length ≤ n := by simp at h1; omega
        rw [List.cons_append, placeholderNums_cons_other hc, placeholderNums_cons_other hc,
          ih x' hr]

/-- The placeholder scan distributes over a concatenation whose right part
does not begin with a numeric character. -/
theorem placeholderNums_append {y : List Char}
    (hy : ∀ c, y.head? = some c → charIsNumeric c = false) (x : List Char) :
    placeholderNums (x ++ y) = placeholderNums x ++ placeholderNums y :=
  placeholderNums_append_aux hy x.length x (le_refl _)

/-! ### Lemmas about the question-mark finishing pass -/

theorem qm_not_mem_replaceQMFrom (k : Nat) (s : List Char) : '?' ∉ replaceQMFrom k s := by
  induction s generalizing k with
  | nil => simp [replaceQMFrom]
  | cons c rest ih =>
    by_cases hc : c = '?'
    · subst hc
      simp only [replaceQMFrom, if_pos]
      intro hmem
      rcases List.mem_cons.mp hmem with h | h
      · cases h
      · rcases List.mem_append.mp h with h | h
        · exact qm_not_mem_natDigits _ h
        · exact ih (k + 1) h
    · simp only [replaceQMFrom, if_neg hc]
      intro hmem
      rcases List.mem_cons.mp hmem with h | h
      · exact hc h.symm
      · exact ih k h

theorem replaceQMFrom_of_no_qm {s : List Char} (h : '?' ∉ s) (k : Nat) :
    replaceQMFrom k s = s := by
  induction s generalizing k with
  | nil => rfl
  | cons c rest ih =>
    have hc : c ≠ '?' := fun hh => h (hh ▸ List.mem_cons_self c rest)
    simp only [replaceQMFrom, if_neg hc]
    rw [ih (fun hm => h (List.mem_cons_of_mem c hm)) k]

theorem replaceQMFrom_append_qm {a : List Char} (h : '?' ∉ a) (k : Nat) (b : List Char) :
    replaceQMFrom k (a ++ '?' :: b) =
      a ++ '$' :: natDigits (k + 1) ++ replaceQMFrom (k + 1) b := by
  induction a generalizing k with
  | nil => simp [replaceQMFrom]
  | cons c a' ih =>
    have hc : c ≠ '?' := fun hh => h (hh ▸ List.mem_cons_self c a')
    simp only [List.cons_append, replaceQMFrom, if_neg hc, List.append_eq]
    rw [ih (fun hm => h (List.mem_cons_of_mem c hm)) k]

/-! ## Claim theorems -/

/-- C1: for two predicate fragments with non-empty (after trimming, as the
code tests emptiness) statements and a well-formed right-hand statement,
combining with AND or OR yields the fragment whose statement is A's
statement, the separator, then B's statement with every placeholder numeral
shifted by A's parameter count, and whose parameter list is A's values
followed by B's values; consequently the placeholder count of the result is
`count A + count B`, the result's placeholder-number list is A's followed by
B's shifted by `|A.args|`, and when both fragments number their placeholders
`1..count` the result numbers them `1..(count A + count B)`, so the `N`-th
placeholder refers to the `N`-th entry of the concatenated value list. -/
theorem c1_combine_renumbering {α : Type} (f1 f2 : Filter α) (sep : List Char)
    (h1 : trimEmpty f1.stmt = false) (h2 : trimEmpty f2.stmt = false)
    (h3 : wfStmt f2.stmt = true)
    (hsep : sep = " AND ".data ∨ sep = " OR ".data) :
    Filter.combine_with_sep f1 f2 sep =
      some ⟨f1.stmt ++ sep ++ specShift f1.args.length f2.stmt, f1.args ++ f2.args⟩ ∧
    dollarCount (f1.stmt ++ sep ++ specShift f1.args.length f2.stmt) =
      dollarCount f1.stmt + dollarCount f2.stmt ∧
    placeholderNums (f1.stmt ++ sep ++ specShift f1.args.length f2.stmt) =
      placeholderNums f1.stmt ++ (placeholderNums f2.stmt).map (· + f1.args.length) ∧
    (placeholderNums f1.stmt = List.range' 1 f1.args.length →
      placeholderNums f2.stmt = List.range' 1 f2.args.length →
      placeholderNums (f1.stmt ++ sep ++ specShift f1.args.length f2.stmt) =
        List.range' 1 (f1.args ++ f2.args).length) := by
  have hsep_nodollar : '$' ∉ sep := by
    rcases hsep with h | h <;> subst h <;> decide
  have hsep_head : ∀ c, sep.head? = some c → charIsNumeric c = false := by
    rcases hsep with h | h <;> subst h <;> intro c hc <;> simp at hc <;> subst hc <;> decide
  have hsep_ne : sep ≠ [] := by
    rcases hsep with h | h <;> subst h <;> decide
  have hy : ∀ c, (sep ++ specShift f1.args.length f2.stmt).head? = some c →
      charIsNumeric c = false := by
    intro c hc
    cases sep with
    | nil => exact absurd rfl hsep_ne
    | cons s0 sep' =>
      simp at hc
      exact hsep_head c (by simp [hc.symm])
  have hnums : placeholderNums (f1.stmt ++ sep ++ specShift f1.args.length f2.stmt) =
      placeholderNums f1.stmt ++ (placeholderNums f2.stmt).map (· + f1.args.length) := by
    rw [List.append_assoc, placeholderNums_append hy f1.stmt,
      placeholderNums_append_no_dollar hsep_nodollar, placeholderNums_specShift]
  refine ⟨?_, ?_, hnums, ?_⟩
  · unfold Filter.combine_with_sep
    rw [h1, h2]
    simp only [Bool.false_eq_true, if_false]
    rw [renumberPlaceholders_eq_specShift _ _ h3]
  · have hsep0 : dollarCount sep = 0 := List.count_eq_zero.mpr hsep_nodollar
    simp only [dollarCount, List.count_append] at *
    rw [hsep0]
    have := dollarCount_specShift f1.args.length f2.stmt
    simp only [dollarCount] at this
    omega
  · intro hA hB
    rw [hnums, hA, hB]
    have hmap : (List.range' 1 f2.args.length).map (· + f1.args.length) =
        List.range' (1 + f1.args.length) f2.args.length := by
      rw [show 1 + f1.args.length = f1.args.length + 1 by omega,
        ← List.map_add_range' f1.args.length 1 f2.args.length 1]
      apply List.map_congr_left
      intro a _
      omega
    rw [hmap, List.length_append, List.range'_append_1]
    congr 1
    omega

/-- C1 witness: the theorem applied to the concrete fragments
`("a = $1", [5])` and `("b = $1", [7])` under AND. -/
theorem c1_combine_renumbering_witness :
    Filter.combine_with_sep (⟨"a = $1".data, [(5 : Int)]⟩ : Filter Int)
      ⟨"b = $1".data, [7]⟩ " AND ".data =
      some ⟨"a = $1 AND b = $2".data, [5, 7]⟩ := by
  have h := c1_combine_renumbering (⟨"a = $1".data, [(5 : Int)]⟩ : Filter Int)
    ⟨"b = $1".data, [7]⟩ " AND ".data (by decide) (by decide) (by decide) (Or.inl rfl)
  rw [h.1]
  decide

/-- C2: combining two `Or` trees with `|` does *not* flatten them — the code
of `impl BitOr for Where` tests the right operand against `And` where its own
comment says "If other is also OR append the whole vec", so an `Or` right
operand is pushed as a nested `Or` child inside the `Or` list (first
conjunct), while the analogous `And`/`&` case does flatten (second conjunct),
and an `And` right operand even has its children spliced into the `Or` list,
changing the logical meaning (third conjunct). -/
theorem c2_or_flattening_bug :
    Where.bitor (Where.Or [Where.Raw "a = ?".data [Val.i 1]])
        (Where.Or [Where.Raw "b = ?".data [Val.i 2]]) =
      Where.Or [Where.Raw "a = ?".data [Val.i 1],
        Where.Or [Where.Raw "b = ?".data [Val.i 2]]] ∧
    Where.bitand (Where.And [Where.Raw "a = ?".data [Val.i 1]])
        (Where.And [Where.Raw "b = ?".data [Val.i 2]]) =
      Where.And [Where.Raw "a = ?".data [Val.i 1], Where.Raw "b = ?".data [Val.i 2]] ∧
    Where.bitor (Where.Or [Where.Raw "a = ?".data [Val.i 1]])
        (Where.And [Where.Raw "b = ?".data [Val.i 2], Where.Raw "c = ?".data [Val.i 3]]) =
      Where.Or [Where.Raw "a = ?".data [Val.i 1],
        Where.Raw "b = ?".data [Val.i 2], Where.Raw "c = ?".data [Val.i 3]] :=
  ⟨rfl, rfl, rfl⟩

/-- C3 counterexample: the combined predicate
`id.gt(1) & title.eq("Foo")` does not render to the claimed text
`"book.id > $1 AND book.title = $2"` — the `Where` renderer parenthesizes
every `And` child. -/
theorem c3_counterexample :
    (whereFinished ((bookId.gt (Val.i 1)).bitand (bookTitle.eq (Val.s "Foo")))).1 ≠
      "book.id > $1 AND book.title = $2".data := by
  decide

/-- C3 (amended): the combined predicate `id.gt(1) & title.eq("Foo")` renders,
after placeholder finishing, exactly to
`"(book.id > $1) AND (book.title = $2)"` with parameter list `[1, "Foo"]` in
that order. -/
theorem c3_combined_render :
    whereFinished ((bookId.gt (Val.i 1)).bitand (bookTitle.eq (Val.s "Foo"))) =
      ("(book.id > $1) AND (book.title = $2)".data, [Val.i 1, Val.s "Foo"]) := by
  decide

/-- C4 counterexample: double negation does not cancel on a tree whose root is
already a doubly-nested `Not`: `not(not(Not(Not(Raw "a"))))` strips both
`Not` wrappers and renders `"a"`, while the tree itself renders
`"NOT (NOT (a))"`. -/
theorem c4_counterexample :
    (Where.render (Where.not (Where.not
        (Where.Not (Where.Not (Where.Raw "a".data ([] : List Val))))))).1 ≠
      (Where.render (Where.Not (Where.Not (Where.Raw "a".data ([] : List Val))))).1 := by
  decide

/-- C4 (amended): for every predicate tree whose root is not a directly
doubly-nested `Not` — the only shape the `not` combinator itself never
produces — double negation is the identity, so `not(not(X))` renders SQL text
(and parameters) identical to `X`. -/
theorem c4_double_negation {α : Type} (w : Where α)
    (h : ∀ y : Where α, w ≠ Where.Not (Where.Not y)) :
    Where.render (Where.not (Where.not w)) = Where.render w := by
  have hw : Where.not (Where.not w) = w := by
    cases w with
    | Not inner =>
      cases inner with
      | Not z => exact absurd rfl (h z)
      | And l => rfl
      | Or l => rfl
      | Raw s p => rfl
      | Empty => rfl
    | And l => rfl
    | Or l => rfl
    | Raw s p => rfl
    | Empty => rfl
  rw [hw]

/-- C4 witness: the amended theorem applied to the concrete tree
`Raw "a"`. -/
theorem c4_double_negation_witness :
    Where.render (Where.not (Where.not (Where.Raw "a".data ([] : List Val)))) =
      Where.render (Where.Raw "a".data ([] : List Val)) :=
  c4_double_negation (Where.Raw "a".data ([] : List Val))
    (fun _ h => Where.noConfusion h)

/-- C5: `Empty` is the identity element of both `&` and `|` on `Where` trees:
combining `Empty` with any tree (on either side) returns that tree itself,
unchanged and unwrapped, and combining two `Empty` trees yields `Empty`. -/
theorem c5_empty_identity {α : Type} (w : Where α) :
    Where.bitand Where.Empty w = w ∧ Where.bitand w Where.Empty = w ∧
    Where.bitor Where.Empty w = w ∧ Where.bitor w Where.Empty = w ∧
    Where.bitand (Where.Empty : Where α) Where.Empty = Where.Empty ∧
    Where.bitor (Where.Empty : Where α) Where.Empty = Where.Empty := by
  refine ⟨?_, ?_, ?_, ?_, rfl, rfl⟩ <;> cases w <;> rfl

/-- C6: the generic-token finishing pass `replace_question_marks` rewrites the
`K`-th occurrence of `'?'` (left to right) into `$K` leaving all other
characters unchanged (fourth conjunct: with `k` tokens already consumed, the
next `'?'` after a `'?'`-free prefix becomes `$(k+1)` and the prefix is copied
verbatim), the concrete example translates as specified (first conjunct), the
output contains no remaining generic tokens (third conjunct), and re-applying
the pass to its own output changes nothing (second conjunct). -/
theorem c6_replace_question_marks :
    replace_question_marks "col = ? AND other = ?".data = "col = $1 AND other = $2".data ∧
    (∀ s : List Char,
      replace_question_marks (replace_question_marks s) = replace_question_marks s) ∧
    (∀ s : List Char, '?' ∉ replace_question_marks s) ∧
    (∀ (k : Nat) (a b : List Char), '?' ∉ a →
      replaceQMFrom k (a ++ '?' :: b) =
        a ++ '$' :: natDigits (k + 1) ++ replaceQMFrom (k + 1) b) := by
  refine ⟨by decide, ?_, ?_, fun k a b h => replaceQMFrom_append_qm h k b⟩
  · intro s
    exact replaceQMFrom_of_no_qm (qm_not_mem_replaceQMFrom 0 s) 0
  · intro s
    exact qm_not_mem_replaceQMFrom 0 s

/-- C6 witness: the theorem's occurrence-rewriting conjunct applied at
`k = 0`, prefix `"x = "` and tail `" AND y"`. -/
theorem c6_replace_question_marks_witness :
    replaceQMFrom 0 ("x = ".data ++ '?' :: " AND y".data) =
      "x = ".data ++ '$' :: natDigits 1 ++ replaceQMFrom 1 " AND y".data :=
  c6_replace_question_marks.2.2.2 0 "x = ".data " AND y".data (by decide)

/-- C7: for every column, `one_of` and `none_of` applied to an empty value
list return `Filter::all()` — the match-everything filter with empty
statement and no parameters — and never SQL with an empty `IN ()` list;
the calls are total, not errors. -/
theorem c7_empty_one_of_none_of {α : Type} (c : Column) :
    c.one_of ([] : List α) = Filter.all ∧
    c.none_of ([] : List α) = Filter.all ∧
    (Filter.all : Filter α).stmt = [] ∧
    (Filter.all : Filter α).args = [] :=
  ⟨rfl, rfl, rfl, rfl⟩

/-- C8: an `Update` builder starts in the `NoneSet` state, which is distinct
from the `SomeSet` state that `Update.toQuery` (the model of the
`From<Update<SomeSet>>` / `IntoFuture` impls, which exist only at
`SomeSet`) requires, so a builder with zero `set` calls can never be rendered
or executed; every `set` call (also on an already-`SomeSet` builder) leaves
the builder in `SomeSet`; and the concrete chain
`Update("book").set(title,"X").set(price,9)` renders
`"UPDATE book SET title = $1, price = $2"` with the assignments and their
parameters in call order. -/
theorem c8_update_type_state :
    ((Update.new "book".data : Update Val).state = SetState.NoneSet) ∧
    (SetState.NoneSet ≠ SetState.SomeSet) ∧
    (∀ (u : Update Val) (c : TypedColumn) (v : Val),
      (u.set c v).state = SetState.SomeSet) ∧
    (Update.toQuery (((Update.new "book".data).set bookTitle (Val.s "X")).set bookPrice (Val.i 9))
        rfl =
      ("UPDATE book SET title = $1, price = $2".data, [Val.s "X", Val.i 9])) := by
  refine ⟨rfl, by decide, fun u c v => rfl, by decide⟩

/-- C9: executing a finished statement with row-collection output decodes the
rows in order and, at the first row whose decode fails, returns exactly that
row's error (first conjunct) — and a successful result decodes every row, so
partial results are never returned (second conjunct); with
optional-single-row output, zero rows yield `none`, not an error (third
conjunct), and with at least one row only the first row is decoded and used —
the result does not depend on the remaining rows (fourth conjunct). -/
theorem c9_exec_outcomes {ρ ε τ : Type} (tryFrom : ρ → Except ε τ) :
    (∀ (pre post : List ρ) (r : ρ) (e : ε),
      (∀ x ∈ pre, ∃ t, tryFrom x = Except.ok t) → tryFrom r = Except.error e →
      vecExecWith (Except.ok (pre ++ r :: post)) tryFrom = Except.error e) ∧
    (∀ (rows : List ρ) (ts : List τ),
      vecExecWith (Except.ok rows) tryFrom = Except.ok ts → ts.length = rows.length) ∧
    (optionExecWith (Except.ok ([] : List ρ)) tryFrom = Except.ok none) ∧
    (∀ (r : ρ) (rest : List ρ),
      optionExecWith (Except.ok (r :: rest)) tryFrom =
        optionExecWith (Except.ok [r]) tryFrom) := by
  refine ⟨?_, ?_, rfl, ?_⟩
  · intro pre post r e hpre hr
    induction pre with
    | nil => simp [vecExecWith, decodeAll, hr]
    | cons x pre' ih =>
      obtain ⟨t, ht⟩ := hpre x (List.mem_cons_self x pre')
      have hrec := ih (fun y hy => hpre y (List.mem_cons_of_mem x hy))
      simp only [vecExecWith] at hrec ⊢
      simp [List.cons_append, decodeAll, ht, hrec]
  · intro rows
    induction rows with
    | nil =>
      intro ts h
      simp [vecExecWith, decodeAll] at h
      simp [← h]
    | cons r rs ih =>
      intro ts h
      simp only [vecExecWith, decodeAll] at h
      cases htr : tryFrom r with
      | error e => rw [htr] at h; cases h
      | ok t =>
        rw [htr] at h
        cases hrec : decodeAll tryFrom rs with
        | error e => rw [hrec] at h; cases h
        | ok ts' =>
          rw [hrec] at h
          cases h
          have := ih ts' (by simpa [vecExecWith] using hrec)
          simp [this]
  · intro r rest
    cases tryFrom r <;> simp [optionExecWith]

/-- C9 witness: the theorem applied to the concrete decoder failing exactly on
`0`, with rows `[1, 0, 2]`: the whole operation returns the failing row's
error. -/
theorem c9_exec_outcomes_witness :
    vecExecWith (Except.ok ([1, 0, 2] : List Nat))
        (fun n : Nat => if n = 0 then Except.error "bad" else Except.ok n) =
      Except.error "bad" :=
  (c9_exec_outcomes (fun n : Nat => if n = 0 then Except.error "bad" else Except.ok n)).1
    [1] [2] 0 "bad"
    (by
      intro x hx
      simp at hx
      subst hx
      exact ⟨1, rfl⟩)
    rfl

/-- C10 counterexample: both statements satisfy the claim's precondition —
every `'$'` is immediately followed by at least one ASCII digit — yet
combining panics (modelled by `none`): the numeral `18446744073709551616`
is `usize::MAX + 1`, so the `parse::<usize>().unwrap()` inside
`combine_with_sep` fails. -/
theorem c10_counterexample :
    everyDollarFollowedByDigit "a".data = true ∧
    everyDollarFollowedByDigit "$18446744073709551616".data = true ∧
    Filter.combine_with_sep (⟨"a".data, []⟩ : Filter Nat)
      ⟨"$18446744073709551616".data, []⟩ " AND ".data = none := by
  refine ⟨by decide, by decide, by decide⟩

/-- C10 (amended): combining two filters never panics provided the right-hand
statement is placeholder well-formed — after every `'$'` the maximal run of
`char::is_numeric` characters is non-empty, consists of ASCII digits only, and
denotes a value that fits in `usize`.  The claim's weaker precondition (each
`'$'` merely followed by one or more ASCII digits) is not enough: an overlong
numeral, or ASCII digits directly followed by a further non-ASCII numeric
character, still makes the unwrapped parse fail. -/
theorem c10_combine_total_of_wf {α : Type} (f1 f2 : Filter α) (sep : List Char)
    (h : wfStmt f2.stmt = true) :
    (Filter.combine_with_sep f1 f2 sep).isSome = true := by
  unfold Filter.combine_with_sep
  by_cases e1 : trimEmpty f1.stmt
  · simp [e1]
  · by_cases e2 : trimEmpty f2.stmt
    · simp [e1, e2]
    · simp [e1, e2, renumberPlaceholders_eq_specShift f1.args.length f2.stmt h]

/-- C10 witness: the amended theorem applied to concrete well-formed
filters. -/
theorem c10_combine_total_of_wf_witness :
    (Filter.combine_with_sep (⟨"a = $1".data, [(0 : Nat)]⟩ : Filter Nat)
      ⟨"b = $1 AND c = $2".data, [1, 2]⟩ " OR ".data).isSome = true :=
  c10_combine_total_of_wf _ _ _ (by decide)

end PgWorm
